import Mathlib

/-!
Verification of the SAR call-out board against its specification.

The backend modelled here is the full prototype in `src/unnamed/part_000`
(second document, `apps/backend/src/index.ts`): in-memory `callouts` and
`resources` arrays, Express routes mutating them, and `io.emit` broadcasts.
Routes are embedded as pure functions on an explicit `ServerState`; the
broadcast channel is modelled as an append-only `events` log; `uuidv4()` and
`new Date().toISOString()` are passed in as the `freshId` / `now` parameters.
The drag-and-drop board reducer is the `handleDragEnd` handler of
`src/apps/frontend/src/DragBoard.tsx`, embedded over an association list of
named pools.
-/

set_option maxHeartbeats 1000000
set_option autoImplicit false

namespace SAR

/-- Resource entity of the backend (`src/unnamed/part_000`, lines 183-187):
`{ id, name, category }`, all strings. -/
structure Resource where
  id : String
  name : String
  category : String
  deriving DecidableEq

/-- Call-out entity of the backend (`src/unnamed/part_000`, lines 105-114).
The route copies the request-body fields verbatim, and a JSON body may omit
any of them, so `name`, `status`, `osGrid`, `latitude`, `longitude` are
`Option`s; JS numbers are modelled as rationals. -/
structure Callout where
  id : String
  name : Option String
  status : Option String
  osGrid : Option String
  latitude : Option Rat
  longitude : Option Rat
  createdAt : String
  assignedResources : List String
  deriving DecidableEq

/-- Broadcast events sent with `io.emit` in `src/unnamed/part_000`. -/
inductive Event where
  | calloutNew (c : Callout)
  | calloutUpdate (c : Callout)
  | calloutDelete (id : String)
  | resourceNew (r : Resource)
  | resourceUpdate (r : Resource)
  | resourceDelete (id : String)
  deriving DecidableEq

/-- In-memory server state: the `callouts` and `resources` arrays of
`src/unnamed/part_000`, plus the log of broadcast events emitted so far. -/
structure ServerState where
  callouts : List Callout
  resources : List Resource
  events : List Event
  deriving DecidableEq

/-- Request body of `POST /callouts` as destructured on line 126 of
`src/unnamed/part_000`: `{ name, status, osGrid, latitude, longitude }`,
each possibly absent. -/
structure CalloutBody where
  name : Option String
  status : Option String
  osGrid : Option String
  latitude : Option Rat
  longitude : Option Rat
  deriving DecidableEq

/-- The call-out object built by `POST /callouts` (lines 127-136): fields are
copied from the body unchanged, `id` is the fresh uuid, `createdAt` the
current time, `assignedResources` starts empty. No field is validated and no
default is applied. -/
def mkCallout (body : CalloutBody) (freshId now : String) : Callout :=
  { id := freshId
    name := body.name
    status := body.status
    osGrid := body.osGrid
    latitude := body.latitude
    longitude := body.longitude
    createdAt := now
    assignedResources := [] }

/-- Route `POST /callouts` (`src/unnamed/part_000`, lines 124-140): builds the
call-out, pushes it, emits `callout:new`, responds `201` with the entity.
There is no error path. -/
def createCallout (s : ServerState) (body : CalloutBody) (freshId now : String) :
    ServerState × Callout :=
  let c := mkCallout body freshId now
  ({ s with
      callouts := s.callouts ++ [c]
      events := s.events ++ [Event.calloutNew c] }, c)

/-- Result of the assign/unassign routes: `404 Not found`, or `200` with the
(updated) call-out as JSON. -/
inductive AssignResult where
  | notFound
  | ok (c : Callout)
  deriving DecidableEq

/-- Replaces the first element satisfying `p` by its image under `f`, leaving
everything else in place. This captures the JS pattern of `find`-ing an object
in an array and mutating it in place. -/
def updateFirst {α : Type*} (p : α → Bool) (f : α → α) : List α → List α
  | [] => []
  | x :: xs => if p x then f x :: xs else x :: updateFirst p f xs

/-- Effect of `c.assignedResources.push(resourceId)` on a call-out. -/
def addResource (rid : String) (c : Callout) : Callout :=
  { c with assignedResources := c.assignedResources ++ [rid] }

/-- Effect of
`c.assignedResources = c.assignedResources.filter(rid => rid !== resourceId)`
on a call-out. -/
def removeResource (rid : String) (c : Callout) : Callout :=
  { c with assignedResources := c.assignedResources.filter (fun r => r != rid) }

/-- Route `POST /callouts/:id/assign` (`src/unnamed/part_000`, lines 153-163):
find the call-out by id (404 when absent); when `resourceId` is not yet in
`assignedResources`, push it and emit `callout:update`; always respond with
the call-out. The resources collection is never consulted. -/
def assign (s : ServerState) (calloutId resourceId : String) :
    ServerState × AssignResult :=
  match s.callouts.find? (fun c => c.id == calloutId) with
  | none => (s, AssignResult.notFound)
  | some c =>
    if c.assignedResources.contains resourceId then
      (s, AssignResult.ok c)
    else
      ({ s with
          callouts :=
            updateFirst (fun x => x.id == calloutId) (addResource resourceId)
              s.callouts
          events := s.events ++ [Event.calloutUpdate (addResource resourceId c)] },
        AssignResult.ok (addResource resourceId c))

/-- Route `POST /callouts/:id/unassign` (`src/unnamed/part_000`, lines
166-174): find the call-out by id (404 when absent); filter `resourceId` out
of `assignedResources` and emit `callout:update` unconditionally, then
respond with the call-out. -/
def unassign (s : ServerState) (calloutId resourceId : String) :
    ServerState × AssignResult :=
  match s.callouts.find? (fun c => c.id == calloutId) with
  | none => (s, AssignResult.notFound)
  | some c =>
    ({ s with
        callouts :=
          updateFirst (fun x => x.id == calloutId) (removeResource resourceId)
            s.callouts
        events := s.events ++ [Event.calloutUpdate (removeResource resourceId c)] },
      AssignResult.ok (removeResource resourceId c))

/-- Result of the resource routes: `400 Missing fields`, `404 Not found`, or
success carrying the resource. -/
inductive ResourceResult where
  | badRequest
  | notFound
  | ok (r : Resource)
  deriving DecidableEq

/-- Route `POST /resources` (`src/unnamed/part_000`, lines 197-205): rejects a
missing or empty (falsy) `name` or `category` with `400`, otherwise pushes a
fresh resource and emits `resource:new`. -/
def createResource (s : ServerState) (name category : Option String)
    (freshId : String) : ServerState × ResourceResult :=
  match name, category with
  | some n, some cat =>
    if n == "" || cat == "" then (s, ResourceResult.badRequest)
    else
      let r : Resource := { id := freshId, name := n, category := cat }
      ({ s with
          resources := s.resources ++ [r]
          events := s.events ++ [Event.resourceNew r] }, ResourceResult.ok r)
  | _, _ => (s, ResourceResult.badRequest)

/-- Field application of `PATCH /resources/:id` (lines 213-214):
`if (name) r.name = name; if (category) r.category = category;` — a field is
written only when present and truthy (a non-empty string); `id` is never
written. -/
def applyPatch (name category : Option String) (r : Resource) : Resource :=
  let r1 :=
    match name with
    | some n => if n == "" then r else { r with name := n }
    | none => r
  match category with
  | some cat => if cat == "" then r1 else { r1 with category := cat }
  | none => r1

/-- Route `PATCH /resources/:id` (`src/unnamed/part_000`, lines 208-217):
find the resource by id (404 when absent), mutate it in place per
`applyPatch`, emit `resource:update`, respond with the resource. -/
def updateResource (s : ServerState) (rid : String)
    (name category : Option String) : ServerState × ResourceResult :=
  match s.resources.find? (fun x => x.id == rid) with
  | none => (s, ResourceResult.notFound)
  | some r =>
    ({ s with
        resources :=
          updateFirst (fun x => x.id == rid) (applyPatch name category)
            s.resources
        events := s.events ++ [Event.resourceUpdate (applyPatch name category r)] },
      ResourceResult.ok (applyPatch name category r))

/-- Route `DELETE /resources/:id` (`src/unnamed/part_000`, lines 220-227):
`findIndex` by id (404 when `-1`), `splice(idx, 1)` — i.e. remove the first
resource whose id matches — and emit `resource:delete` with `{ id }`. The
`callouts` array is not touched. -/
def deleteResource (s : ServerState) (rid : String) : ServerState × Bool :=
  match s.resources.find? (fun x => x.id == rid) with
  | none => (s, false)
  | some _ =>
    ({ s with
        resources := s.resources.eraseP (fun x => x.id == rid)
        events := s.events ++ [Event.resourceDelete rid] }, true)

/-- Route `DELETE /callouts/:id` (`src/unnamed/part_000`, lines 143-150):
`findIndex` by id (404 when `-1`), `splice(idx, 1)` and emit
`callout:delete`. -/
def deleteCallout (s : ServerState) (cid : String) : ServerState × Bool :=
  match s.callouts.find? (fun c => c.id == cid) with
  | none => (s, false)
  | some _ =>
    ({ s with
        callouts := s.callouts.eraseP (fun c => c.id == cid)
        events := s.events ++ [Event.calloutDelete cid] }, true)

/-- Startup seed (`src/unnamed/part_000`, lines 88-94): the result of
`fs.readFileSync` + `JSON.parse` is modelled as an `Except` value; the
`try`/`catch` keeps `initialResources = []` on failure. -/
def initialResources (readResult : Except String (List Resource)) :
    List Resource :=
  match readResult with
  | Except.ok rs => rs
  | Except.error _ => []

/-- Server state at startup: empty call-outs, resources from the seed (line
188: `const resources: Resource[] = initialResources`), no events yet. -/
def initState (readResult : Except String (List Resource)) : ServerState :=
  { callouts := [], resources := initialResources readResult, events := [] }

/-- Call-out entity of the simpler backend variant `src/apps/backend/index.ts`
(lines 16-24): no `assignedResources` field at all. -/
structure CallOutV2 where
  id : String
  name : Option String
  status : String
  latitude : Option Rat
  longitude : Option Rat
  osGrid : Option String
  createdAt : String
  deriving DecidableEq

/-- The call-out built by `POST /callouts` of `src/apps/backend/index.ts`
(lines 34-49): `status` is hard-coded to `"active"` ("always default to
active") and the body's `status` field is ignored; there is no
`assignedResources` field. -/
def createCallOutV2 (body : CalloutBody) (freshId now : String) : CallOutV2 :=
  { id := freshId
    name := body.name
    status := "active"
    latitude := body.latitude
    longitude := body.longitude
    osGrid := body.osGrid
    createdAt := now }

/-- Concrete server state used by witnesses: one call-out `"c1"` with nothing
assigned, one resource `"r1"`, no events yet. -/
def witState : ServerState :=
  { callouts :=
      [{ id := "c1", name := some "Fell rescue", status := some "active",
         osGrid := none, latitude := some 54, longitude := some (-3),
         createdAt := "t0", assignedResources := [] }]
    resources := [{ id := "r1", name := "Land Rover", category := "vehicles" }]
    events := [] }

/-- The call-out stored in `witState`. -/
def witCallout : Callout :=
  { id := "c1", name := some "Fell rescue", status := some "active",
    osGrid := none, latitude := some 54, longitude := some (-3),
    createdAt := "t0", assignedResources := [] }

/-- The call-out of `witState` with resource `"r1"` assigned. -/
def witCallout2 : Callout :=
  { witCallout with assignedResources := ["r1"] }

/-- Concrete server state where resource `"r1"` is assigned to call-out
`"c1"`. -/
def witState2 : ServerState :=
  { witState with callouts := [witCallout2] }

/-- The empty server state. -/
def emptyState : ServerState :=
  { callouts := [], resources := [], events := [] }

/-- A request body with an empty name and no location representation at all. -/
def badBody : CalloutBody :=
  { name := some "", status := none, osGrid := none,
    latitude := none, longitude := none }

/-- The request body of spec scenario 1, with `status` omitted. -/
def fellBody : CalloutBody :=
  { name := some "Fell rescue", status := none, osGrid := none,
    latitude := some (109 / 2 : Rat), longitude := some (-31 / 10 : Rat) }

end SAR

namespace Board

/-- Resource shape of the drag board (`src/apps/frontend/src/DragBoard.tsx`,
lines 18-22): `{ id, label, type }`. -/
structure BoardResource where
  id : String
  label : String
  type : String
  deriving DecidableEq

/-- The board state `columns`: a JS object mapping column ids to ordered
arrays of resources, modelled as an association list (keys are unique in a JS
object; theorems carry that as a `Nodup` hypothesis). -/
abbrev Pools := List (String × List BoardResource)

/-- Keys of the `columns` object. -/
def poolKeys (pools : Pools) : List String := pools.map Prod.fst

/-- Read `columns[k]` (always a key in the rendered board; absent keys read
as the empty list). -/
def getPool (pools : Pools) (k : String) : List BoardResource :=
  match pools.find? (fun p => p.1 == k) with
  | some p => p.2
  | none => []

/-- Object spread `{...columns, [k]: v}` for an existing key `k`: every entry
keyed `k` is overwritten, the rest are unchanged. -/
def setPool (pools : Pools) (k : String) (v : List BoardResource) : Pools :=
  pools.map (fun p => if p.1 == k then (p.1, v) else p)

/-- The line
`Object.keys(columns).find(col => columns[col].some(res => res.id === active.id))`
of `handleDragEnd` (lines 90-92): the first column containing the dragged id. -/
def findPool (pools : Pools) (rid : String) : Option String :=
  (pools.find? (fun p => p.2.any (fun r => r.id == rid))).map Prod.fst

/-- The droppable hovered when the drag ended: its `id`, and
`over.data.current?.columnId`, which is set (to the column id) only for
column droppables, not for sortable strips. -/
structure Over where
  id : String
  columnId : Option String
  deriving DecidableEq

/-- The `DragEndEvent` data consumed by `handleDragEnd`: `active.id` and the
optional `over` droppable. -/
structure DragEndEvent where
  activeId : String
  over : Option Over
  deriving DecidableEq

/-- JS `Array.prototype.findIndex`: index of the first match, `-1` if none. -/
def jsFindIndex {α : Type*} (l : List α) (p : α → Bool) : Int :=
  match l.findIdx? p with
  | some i => (i : Int)
  | none => -1

/-- Insertion position of JS `splice(start, 0, x)` on a array of length
`len`: a negative `start` counts from the end (clamped at 0), a large one is
clamped to `len`. -/
def spliceInsertPos (len : Nat) (pos : Int) : Nat :=
  if pos < 0 then ((len : Int) + pos).toNat else min pos.toNat len

/-- The dnd-kit `arrayMove(array, from, to)` helper used on line 101:
`newArray.splice(to < 0 ? newArray.length + to : to, 0, newArray.splice(from, 1)[0])`.
In `handleDragEnd` the `from` index always points at a real element (the
dragged resource was found in the column); the out-of-range case, where JS
would insert `undefined`, is modelled as the identity. -/
def spliceStart {α : Type*} (l : List α) (i : Int) : Nat :=
  if i < 0 then (((l.length : Int) + i)).toNat else i.toNat

def arrayMove {α : Type*} (l : List α) (i tgt : Int) : List α :=
  match l[spliceStart l i]? with
  | none => l
  | some x =>
    (l.eraseIdx (spliceStart l i)).insertIdx
      (spliceInsertPos (l.eraseIdx (spliceStart l i)).length tgt) x

/-- The `handleDragEnd` handler of `src/apps/frontend/src/DragBoard.tsx`
(lines 86-111), as a pure state transition on `columns`:
no-op when nothing is hovered, when no column contains the dragged id, or
when the hovered droppable carries no `columnId`; same-column drops reorder
with `arrayMove`; cross-column drops filter the resource out of its column
and append it to the end of the target column. -/
def handleDragEnd (columns : Pools) (ev : DragEndEvent) : Pools :=
  match ev.over with
  | none => columns
  | some o =>
    match findPool columns ev.activeId, o.columnId with
    | some fromCol, some toCol =>
      if fromCol = toCol then
        let items := getPool columns fromCol
        let oldIdx := jsFindIndex items (fun r => r.id == ev.activeId)
        let newIdx := jsFindIndex items (fun r => r.id == o.id)
        setPool columns fromCol (arrayMove items oldIdx newIdx)
      else
        match (getPool columns fromCol).find? (fun r => r.id == ev.activeId) with
        | some moving =>
          setPool
            (setPool columns fromCol
              ((getPool columns fromCol).filter (fun r => r.id != ev.activeId)))
            toCol (getPool columns toCol ++ [moving])
        | none => columns
    | _, _ => columns

/-- Folding a sequence of drag events over the board state. -/
def applyMoves (columns : Pools) (evs : List DragEndEvent) : Pools :=
  evs.foldl handleDragEnd columns

/-- All resources on the board, in column order. -/
def allItems (pools : Pools) : List BoardResource :=
  (pools.map Prod.snd).flatten

/-- All resource ids on the board. -/
def allIds (pools : Pools) : List String :=
  (allItems pools).map BoardResource.id

/-- Sum over pools of the pool length. -/
def sumLens (pools : Pools) : Nat :=
  (pools.map (fun p => p.2.length)).sum

/-- An event only ever targets a column that exists on the board (dnd-kit
`over` droppables are exactly the rendered columns and strips). -/
def targetOk (pools : Pools) (ev : DragEndEvent) : Bool :=
  match ev.over with
  | none => true
  | some o =>
    match o.columnId with
    | none => true
    | some t => decide (t ∈ poolKeys pools)

/-- Demo resource `r1` of `DragBoard.tsx` (line 27). -/
def r1br : BoardResource := { id := "r1", label := "Team Leader", type := "PERSONNEL" }

/-- Demo resource `r2` of `DragBoard.tsx` (line 28). -/
def r2br : BoardResource := { id := "r2", label := "4x4 Vehicle", type := "VEHICLE" }

/-- Demo resource `r3` of `DragBoard.tsx` (line 29). -/
def r3br : BoardResource := { id := "r3", label := "Medical Pack", type := "MEDICAL_PACK" }

/-- The initial demo board of `DragBoard.tsx` (lines 25-33). -/
def demoPools : Pools :=
  [("available", [r1br, r2br, r3br]), ("teamA", []), ("teamB", [])]

/-- Board with `r1`, `r2` available and `r3` already on `teamA`, used to
exercise a cross-column move into a non-empty target. -/
def cexPools : Pools :=
  [("available", [r1br, r2br]), ("teamA", [r3br])]

/-- Drag event: `r1` dropped on the `teamA` column droppable. -/
def cexEv : DragEndEvent :=
  { activeId := "r1", over := some { id := "teamA", columnId := some "teamA" } }

/-- Board Reducer move operation as worded by the specification (§4.3), for
comparison with the implemented `handleDragEnd`: no-op when `resourceId` is
not in `fromPool`; same-pool moves reposition to `targetIndex`; cross-pool
moves remove from `fromPool` and insert into `toPool` at `targetIndex`
clamped to `[0, len(toPool)]`, touching no other pool. -/
def specMove (pools : Pools) (rid fromPool toPool : String)
    (targetIndex : Nat) : Pools :=
  match (getPool pools fromPool).find? (fun r => r.id == rid) with
  | none => pools
  | some moving =>
    if fromPool = toPool then
      let rest := (getPool pools fromPool).filter (fun r => r.id != rid)
      setPool pools fromPool (rest.insertIdx (min targetIndex rest.length) moving)
    else
      setPool
        (setPool pools fromPool
          ((getPool pools fromPool).filter (fun r => r.id != rid)))
        toPool
        ((getPool pools toPool).insertIdx
          (min targetIndex (getPool pools toPool).length) moving)

end Board

namespace SAR

theorem assign_resources_update (s : ServerState) (rs : List Resource)
    (cid rid : String) :
    assign { s with resources := rs } cid rid =
      ({ (assign s cid rid).1 with resources := rs }, (assign s cid rid).2) := by
  unfold assign
  cases hf : s.callouts.find? (fun c => c.id == cid) with
  | none => simp [hf]
  | some c =>
    simp only [hf]
    by_cases hm : c.assignedResources.contains rid = true
    · rw [if_pos hm, if_pos hm]
    · rw [if_neg hm, if_neg hm]

/-- C5: `assign` answers 404 exactly when the call-out id is absent; the
resources collection plays no role at all (swapping it changes nothing
observable), so assigning an id with no corresponding resource still succeeds
and lands in `assignedResources`. -/
theorem assign_no_resource_check (s : ServerState) (cid rid : String) :
    ((assign s cid rid).2 = AssignResult.notFound ↔
      s.callouts.find? (fun c => c.id == cid) = none) ∧
    (∀ rs : List Resource,
      (assign { s with resources := rs } cid rid).2 = (assign s cid rid).2 ∧
      (assign { s with resources := rs } cid rid).1.callouts =
        (assign s cid rid).1.callouts ∧
      (assign { s with resources := rs } cid rid).1.events =
        (assign s cid rid).1.events) ∧
    (∀ c, s.callouts.find? (fun x => x.id == cid) = some c →
      ∃ c1, (assign s cid rid).2 = AssignResult.ok c1 ∧
        rid ∈ c1.assignedResources) := by
  refine ⟨?_, ?_, ?_⟩
  · cases hf : s.callouts.find? (fun c => c.id == cid) with
    | none => simp [assign, hf]
    | some c =>
      simp only [assign, hf]
      constructor
      · intro h
        by_cases hm : c.assignedResources.contains rid = true
        · rw [if_pos hm] at h; exact absurd h (by simp)
        · rw [if_neg hm] at h; exact absurd h (by simp)
      · intro h; simp at h
  · intro rs
    rw [assign_resources_update]
    exact ⟨rfl, rfl, rfl⟩
  · intro c hc
    by_cases hm : c.assignedResources.contains rid = true
    · refine ⟨c, ?_, ?_⟩
      · simp only [assign, hc]; rw [if_pos hm]
      · simpa [List.elem_iff] using hm
    · refine ⟨addResource rid c, ?_, ?_⟩
      · simp only [assign, hc]; rw [if_neg hm]
      · simp [addResource]

theorem assign_no_resource_check_witness :
    witState.callouts.find? (fun x => x.id == "c1") = some witCallout ∧
    (∃ c1, (assign witState "c1" "ghost").2 = AssignResult.ok c1 ∧
      "ghost" ∈ c1.assignedResources) := by
  have hfind : witState.callouts.find? (fun x => x.id == "c1") = some witCallout := by
    decide
  exact ⟨hfind, (assign_no_resource_check witState "c1" "ghost").2.2 witCallout hfind⟩

/-- C6 (amended): the two routes follow different emission policies. `assign`
emits exactly one `callout:update` when the assignment changes state and none
on an idempotent repeat (where the whole state is untouched), while
`unassign` emits exactly one `callout:update` on every hit of an existing
call-out — including the no-op removal of an id that was never assigned.
Neither route emits anything on a 404. -/
theorem broadcast_policy_divergence (s : ServerState) (cid rid : String) :
    (s.callouts.find? (fun c => c.id == cid) = none →
      (assign s cid rid).1.events = s.events ∧
      (unassign s cid rid).1.events = s.events) ∧
    (∀ c, s.callouts.find? (fun c => c.id == cid) = some c →
      (rid ∈ c.assignedResources → (assign s cid rid).1 = s) ∧
      (rid ∉ c.assignedResources →
        (assign s cid rid).1.events =
          s.events ++ [Event.calloutUpdate (addResource rid c)]) ∧
      (unassign s cid rid).1.events =
        s.events ++ [Event.calloutUpdate (removeResource rid c)]) := by
  refine ⟨?_, ?_⟩
  · intro hf
    constructor
    · simp [assign, hf]
    · simp [unassign, hf]
  · intro c hc
    refine ⟨?_, ?_, ?_⟩
    · intro hmem
      have hm : c.assignedResources.contains rid = true := by
        simpa [List.elem_iff] using hmem
      simp only [assign, hc]
      rw [if_pos hm]
    · intro hmem
      have hm : ¬ c.assignedResources.contains rid = true := by
        simpa [List.elem_iff] using hmem
      simp only [assign, hc]
      rw [if_neg hm]
    · simp [unassign, hc]

theorem broadcast_policy_divergence_witness :
    witState.callouts.find? (fun c => c.id == "c1") = some witCallout ∧
    "r9" ∉ witCallout.assignedResources ∧
    (assign witState "c1" "r9").1.events =
      witState.events ++ [Event.calloutUpdate (addResource "r9" witCallout)] ∧
    (unassign witState "c1" "r9").1.events =
      witState.events ++ [Event.calloutUpdate (removeResource "r9" witCallout)] := by
  have hfind : witState.callouts.find? (fun c => c.id == "c1") = some witCallout := by
    decide
  have hnm : "r9" ∉ witCallout.assignedResources := by decide
  have h := (broadcast_policy_divergence witState "c1" "r9").2 witCallout hfind
  exact ⟨hfind, hnm, h.2.1 hnm, h.2.2⟩

/-- C6 (counterexample): an `unassign` of a resource id that is not assigned
changes no call-out — the store is observably identical — yet still emits a
`callout:update` event, so the "no event on idempotent no-op" policy claimed
for both operations is violated by `unassign`. -/
theorem unassign_noop_still_emits :
    (unassign witState "c1" "r9").1.callouts = witState.callouts ∧
    (unassign witState "c1" "r9").2 = AssignResult.ok witCallout ∧
    (unassign witState "c1" "r9").1.events =
      witState.events ++ [Event.calloutUpdate witCallout] := by
  decide

/-- C9: when reading or parsing the seed file fails, the `catch` leaves
`initialResources` empty, the server state starts with an empty resources
collection, and requests are still served — creating a resource on the
degraded state succeeds. -/
theorem seed_failure_nonfatal (e : String) :
    initialResources (Except.error e) = [] ∧
    (initState (Except.error e)).resources = [] ∧
    (createResource (initState (Except.error e)) (some "Land Rover")
        (some "vehicles") "r1").2 =
      ResourceResult.ok { id := "r1", name := "Land Rover", category := "vehicles" } ∧
    (createResource (initState (Except.error e)) (some "Land Rover")
        (some "vehicles") "r1").1.resources =
      [{ id := "r1", name := "Land Rover", category := "vehicles" }] :=
  ⟨rfl, rfl, rfl, rfl⟩

theorem updateFirst_find? {α : Type*} {p : α → Bool} {f : α → α}
    (hpf : ∀ c, p c = true → p (f c) = true) :
    ∀ {l : List α} {c : α}, l.find? p = some c →
      (updateFirst p f l).find? p = some (f c) := by
  intro l
  induction l with
  | nil => intro c hc; simp at hc
  | cons x xs ih =>
    intro c hc
    rw [List.find?_cons] at hc
    by_cases hx : p x = true
    · simp only [hx, if_pos] at hc
      obtain rfl : x = c := by injection hc
      simp [updateFirst, hx, hpf x hx, List.find?_cons]
    · simp only [hx, Bool.false_eq_true, reduceIte] at hc
      rw [updateFirst]
      simp only [hx, Bool.false_eq_true, reduceIte]
      rw [List.find?_cons]
      simp only [hx, Bool.false_eq_true, reduceIte]
      exact ih hc

theorem addResource_id (rid : String) (c : Callout) :
    (addResource rid c).id = c.id := rfl

/-- C1: `assign` is idempotent — re-running `assign` on the pair it was just
run on changes nothing (same state, same events, same response, no error),
and the assigned id occurs exactly once in the result. -/
theorem assign_idempotent (s : ServerState) (cid rid : String) (c : Callout)
    (hc : s.callouts.find? (fun x => x.id == cid) = some c)
    (hnd : c.assignedResources.Nodup) :
    assign (assign s cid rid).1 cid rid = assign s cid rid ∧
    ∃ c1, (assign s cid rid).2 = AssignResult.ok c1 ∧
      c1.assignedResources.count rid = 1 := by
  by_cases hmem : c.assignedResources.contains rid = true
  · have h1 : assign s cid rid = (s, AssignResult.ok c) := by
      simp only [assign, hc]
      rw [if_pos hmem]
    refine ⟨?_, c, ?_, ?_⟩
    · rw [h1]; exact h1
    · rw [h1]
    · have hmm : rid ∈ c.assignedResources := by
        simpa [List.elem_iff] using hmem
      exact List.count_eq_one_of_mem hnd hmm
  · have hnotmem : rid ∉ c.assignedResources := by
      simpa [List.elem_iff] using hmem
    have h1 : assign s cid rid =
        ({ s with
            callouts :=
              updateFirst (fun x => x.id == cid) (addResource rid) s.callouts
            events := s.events ++ [Event.calloutUpdate (addResource rid c)] },
          AssignResult.ok (addResource rid c)) := by
      simp only [assign, hc]
      rw [if_neg hmem]
    have hfind : (updateFirst (fun x => x.id == cid) (addResource rid)
        s.callouts).find? (fun x => x.id == cid) = some (addResource rid c) :=
      @updateFirst_find? _ (fun x => x.id == cid) (addResource rid)
        (fun x hx => hx) _ _ hc
    have hcontains : (addResource rid c).assignedResources.contains rid = true := by
      simp [addResource, List.elem_iff]
    refine ⟨?_, addResource rid c, ?_, ?_⟩
    · rw [h1]
      simp only [assign, hfind]
      rw [if_pos hcontains]
    · rw [h1]
    · simp [addResource, List.count_append, List.count_eq_zero.mpr hnotmem]

theorem find?_pred {α : Type*} {p : α → Bool} {l : List α} {a : α}
    (h : l.find? p = some a) : p a = true :=
  List.find?_some h

/-- C8: `DELETE /resources/:id` removes the resource from the resources
collection and leaves the callouts collection — hence every
`assignedResources` list, including one that still holds the deleted id —
completely untouched. -/
theorem deleteResource_no_cascade (s : ServerState) (rid : String) (c : Callout)
    (hc : c ∈ s.callouts) (hr : rid ∈ c.assignedResources)
    (hnd : (s.resources.map Resource.id).Nodup)
    (hex : ∃ r ∈ s.resources, r.id = rid) :
    (deleteResource s rid).2 = true ∧
    (deleteResource s rid).1.callouts = s.callouts ∧
    c ∈ (deleteResource s rid).1.callouts ∧
    rid ∈ c.assignedResources ∧
    (∀ r ∈ (deleteResource s rid).1.resources, r.id ≠ rid) := by
  obtain ⟨r0, hr0, hid0⟩ := hex
  have hp0 : (fun x : Resource => x.id == rid) r0 = true := by simp [hid0]
  have hsome : (s.resources.find? (fun x => x.id == rid)).isSome = true :=
    List.find?_isSome.mpr ⟨r0, hr0, hp0⟩
  obtain ⟨r1, hf⟩ := Option.isSome_iff_exists.mp hsome
  have hdel : deleteResource s rid =
      ({ s with
          resources := s.resources.eraseP (fun x => x.id == rid)
          events := s.events ++ [Event.resourceDelete rid] }, true) := by
    simp [deleteResource, hf]
  refine ⟨by rw [hdel], by rw [hdel], by rw [hdel]; exact hc, hr, ?_⟩
  rw [hdel]
  intro r hmem hridEq
  have hr1mem := List.mem_of_find?_eq_some hf
  have hpr1 := find?_pred hf
  obtain ⟨a, l1, l2, hnl1, hpa, heq, herase⟩ :=
    @List.exists_of_eraseP _ (fun x : Resource => x.id == rid) s.resources r1
      hr1mem hpr1
  rw [herase] at hmem
  rw [heq, List.map_append, List.map_cons] at hnd
  have haid : a.id = rid := by simpa using hpa
  have hnotin : a.id ∉ l1.map Resource.id ++ l2.map Resource.id :=
    (List.nodup_cons.mp (List.nodup_middle.mp hnd)).1
  apply hnotin
  rw [haid, ← hridEq]
  rcases List.mem_append.mp hmem with hm1 | hm2
  · exact List.mem_append.mpr (Or.inl (List.mem_map_of_mem Resource.id hm1))
  · exact List.mem_append.mpr (Or.inr (List.mem_map_of_mem Resource.id hm2))

theorem deleteResource_no_cascade_witness :
    witCallout2 ∈ witState2.callouts ∧
    "r1" ∈ witCallout2.assignedResources ∧
    (witState2.resources.map Resource.id).Nodup ∧
    (∃ r ∈ witState2.resources, r.id = "r1") ∧
    ((deleteResource witState2 "r1").2 = true ∧
      (deleteResource witState2 "r1").1.callouts = witState2.callouts ∧
      witCallout2 ∈ (deleteResource witState2 "r1").1.callouts ∧
      "r1" ∈ witCallout2.assignedResources ∧
      (∀ r ∈ (deleteResource witState2 "r1").1.resources, r.id ≠ "r1")) := by
  have h1 : witCallout2 ∈ witState2.callouts := by decide
  have h2 : "r1" ∈ witCallout2.assignedResources := by decide
  have h3 : (witState2.resources.map Resource.id).Nodup := by decide
  have h4 : ∃ r ∈ witState2.resources, r.id = "r1" :=
    ⟨{ id := "r1", name := "Land Rover", category := "vehicles" },
      by decide, rfl⟩
  exact ⟨h1, h2, h3, h4, deleteResource_no_cascade witState2 "r1" witCallout2 h1 h2 h3 h4⟩

theorem applyPatch_id (nm ct : Option String) (r : Resource) :
    (applyPatch nm ct r).id = r.id := by
  unfold applyPatch
  cases nm <;> cases ct <;> dsimp only
  all_goals repeat' split
  all_goals simp_all

theorem applyPatch_name (nm ct : Option String) (r : Resource) :
    (applyPatch nm ct r).name =
      match nm with
      | some n => if n == "" then r.name else n
      | none => r.name := by
  unfold applyPatch
  cases nm <;> cases ct <;> dsimp only
  all_goals repeat' split
  all_goals simp_all

theorem applyPatch_category (nm ct : Option String) (r : Resource) :
    (applyPatch nm ct r).category =
      match ct with
      | some cat => if cat == "" then r.category else cat
      | none => r.category := by
  unfold applyPatch
  cases nm <;> cases ct <;> dsimp only
  all_goals repeat' split
  all_goals simp_all

/-- C10: `PATCH /resources/:id` treats an empty-string field like an absent
one — the stored field keeps its value and the call still succeeds — a field
is copied only when it is a present, non-empty string, and the id is never
changed; the entity answered is exactly the entity stored. -/
theorem updateResource_empty_fields (s : ServerState) (rid : String)
    (r : Resource) (nm ct : Option String)
    (hr : s.resources.find? (fun x => x.id == rid) = some r) :
    ∃ r1, (updateResource s rid nm ct).2 = ResourceResult.ok r1 ∧
      r1.id = r.id ∧
      ((nm = none ∨ nm = some "") → r1.name = r.name) ∧
      ((ct = none ∨ ct = some "") → r1.category = r.category) ∧
      (∀ n, nm = some n → n ≠ "" → r1.name = n) ∧
      (∀ cat, ct = some cat → cat ≠ "" → r1.category = cat) ∧
      (updateResource s rid nm ct).1.resources.find? (fun x => x.id == rid) =
        some r1 := by
  refine ⟨applyPatch nm ct r, ?_, applyPatch_id nm ct r, ?_, ?_, ?_, ?_, ?_⟩
  · simp [updateResource, hr]
  · rintro (rfl | rfl) <;> simp [applyPatch_name]
  · rintro (rfl | rfl) <;> simp [applyPatch_category]
  · rintro n rfl hne
    rw [applyPatch_name]
    simp [hne]
  · rintro cat rfl hne
    rw [applyPatch_category]
    simp [hne]
  · have hres : (updateResource s rid nm ct).1.resources =
        updateFirst (fun x => x.id == rid) (applyPatch nm ct) s.resources := by
      simp [updateResource, hr]
    rw [hres]
    exact @updateFirst_find? _ (fun x => x.id == rid) (applyPatch nm ct)
      (fun x hx => by dsimp only; rw [applyPatch_id]; exact hx) _ _ hr

theorem updateResource_empty_fields_witness :
    witState.resources.find? (fun x => x.id == "r1") =
      some { id := "r1", name := "Land Rover", category := "vehicles" } ∧
    (∃ r1, (updateResource witState "r1" (some "") (some "")).2 =
        ResourceResult.ok r1 ∧
      r1.id = "r1" ∧
      ((some "" = none ∨ (some "" : Option String) = some "") → r1.name = "Land Rover") ∧
      ((some "" = none ∨ (some "" : Option String) = some "") →
        r1.category = "vehicles") ∧
      (∀ n, (some "" : Option String) = some n → n ≠ "" → r1.name = n) ∧
      (∀ cat, (some "" : Option String) = some cat → cat ≠ "" → r1.category = cat) ∧
      (updateResource witState "r1" (some "") (some "")).1.resources.find?
        (fun x => x.id == "r1") = some r1) := by
  have hfind : witState.resources.find? (fun x => x.id == "r1") =
      some { id := "r1", name := "Land Rover", category := "vehicles" } := by
    decide
  exact ⟨hfind,
    updateResource_empty_fields witState "r1"
      { id := "r1", name := "Land Rover", category := "vehicles" }
      (some "") (some "") hfind⟩

/-- C3 (amended): `POST /callouts` performs no validation at all — every
request body, including one with an empty or missing name and no location
representation, is accepted: the call-out is built verbatim from the body
fields, appended to the collection, broadcast as `callout:new`, and returned;
no `ValidationError` path exists in this route. -/
theorem createCallout_no_validation (s : ServerState) (body : CalloutBody)
    (freshId now : String) :
    createCallout s body freshId now =
      ({ s with
          callouts := s.callouts ++ [mkCallout body freshId now]
          events := s.events ++ [Event.calloutNew (mkCallout body freshId now)] },
        mkCallout body freshId now) := rfl

/-- C3 (counterexample): the input with `name = ""` and no grid reference or
coordinates is stored anyway — the collection grows and the stored call-out
has an empty name and no location — refuting the claim that such input fails
with a `ValidationError` leaving the collection unchanged. -/
theorem createCallout_accepts_invalid :
    (createCallout emptyState badBody "id-1" "t1").1.callouts =
      [mkCallout badBody "id-1" "t1"] ∧
    (mkCallout badBody "id-1" "t1").name = some "" ∧
    (mkCallout badBody "id-1" "t1").osGrid = none ∧
    (mkCallout badBody "id-1" "t1").latitude = none ∧
    (mkCallout badBody "id-1" "t1").longitude = none := by
  decide

/-- C4 (amended): the created call-out (returned, stored, and broadcast as
one identical entity) always has `assignedResources = []`, and its `status`
is whatever the input carried — an omitted status stays absent instead of
defaulting to `"active"` in the `src/unnamed/part_000` backend; only the
variant backend `src/apps/backend/index.ts` hard-codes `status = "active"`,
and that variant's entity has no `assignedResources` field at all. -/
theorem createCallout_status_passthrough (s : ServerState) (body : CalloutBody)
    (freshId now : String) :
    (createCallout s body freshId now).2.status = body.status ∧
    (createCallout s body freshId now).2.assignedResources = [] ∧
    (createCallout s body freshId now).1.callouts.getLast? =
      some (createCallout s body freshId now).2 ∧
    (createCallout s body freshId now).1.events.getLast? =
      some (Event.calloutNew (createCallout s body freshId now).2) ∧
    (createCallOutV2 body freshId now).status = "active" := by
  refine ⟨rfl, rfl, ?_, ?_, rfl⟩
  · simp [createCallout]
  · simp [createCallout]

/-- C4 (counterexample): creating the spec's scenario-1 call-out with
`status` omitted yields an entity whose `status` is absent, not `"active"`
(its `assignedResources` is indeed `[]`). -/
theorem createCallout_status_not_defaulted :
    (createCallout emptyState fellBody "id-1" "t1").2.status ≠ some "active" ∧
    (createCallout emptyState fellBody "id-1" "t1").2.status = none ∧
    (createCallout emptyState fellBody "id-1" "t1").2.assignedResources = [] := by
  decide

theorem assign_idempotent_witness :
    witState.callouts.find? (fun x => x.id == "c1") = some witCallout ∧
    witCallout.assignedResources.Nodup ∧
    (assign (assign witState "c1" "r1").1 "c1" "r1" = assign witState "c1" "r1" ∧
      ∃ c1, (assign witState "c1" "r1").2 = AssignResult.ok c1 ∧
        c1.assignedResources.count "r1" = 1) :=
  ⟨by decide, by decide,
    assign_idempotent witState "c1" "r1" witCallout (by decide) (by decide)⟩

end SAR


namespace Board

theorem setPool_cons (p : String × List BoardResource) (ps : Pools)
    (k : String) (v : List BoardResource) :
    setPool (p :: ps) k v =
      (if p.1 == k then (p.1, v) else p) :: setPool ps k v := rfl

theorem getPool_cons_pos (p : String × List BoardResource) (ps : Pools)
    (k : String) (h : (p.1 == k) = true) : getPool (p :: ps) k = p.2 := by
  simp [getPool, List.find?_cons, h]

theorem getPool_cons_neg (p : String × List BoardResource) (ps : Pools)
    (k : String) (h : (p.1 == k) = false) : getPool (p :: ps) k = getPool ps k := by
  simp [getPool, List.find?_cons, h]

theorem poolKeys_setPool (pools : Pools) (k : String) (v : List BoardResource) :
    poolKeys (setPool pools k v) = poolKeys pools := by
  induction pools with
  | nil => rfl
  | cons p ps ih =>
    rw [setPool_cons]
    by_cases hpk : (p.1 == k) = true
    · rw [if_pos hpk]
      simp only [poolKeys, List.map_cons] at ih ⊢
      exact congrArg ((p.1, v).1 :: ·) ih
    · rw [if_neg hpk]
      simp only [poolKeys, List.map_cons] at ih ⊢
      exact congrArg (p.1 :: ·) ih

theorem setPool_of_not_mem (pools : Pools) (k : String) (v : List BoardResource)
    (h : k ∉ poolKeys pools) : setPool pools k v = pools := by
  induction pools with
  | nil => rfl
  | cons p ps ih =>
    simp only [poolKeys, List.map_cons, List.mem_cons, not_or] at h
    have hpk : ¬ (p.1 == k) = true := by
      simp only [beq_iff_eq]
      exact fun hh => h.1 hh.symm
    rw [setPool_cons, if_neg hpk]
    have ih' := ih (by simpa [poolKeys] using h.2)
    rw [ih']

theorem getPool_eq_of_mem (pools : Pools)
    (hwf : (poolKeys pools).Nodup) {q : String × List BoardResource}
    (hq : q ∈ pools) : getPool pools q.1 = q.2 := by
  induction pools with
  | nil => simp at hq
  | cons p ps ih =>
    rcases List.mem_cons.mp hq with rfl | hq'
    · exact getPool_cons_pos q ps q.1 (by simp)
    · have hkey : p.1 ≠ q.1 := by
        simp only [poolKeys, List.map_cons, List.nodup_cons] at hwf
        intro hh
        exact hwf.1 (hh ▸ List.mem_map_of_mem Prod.fst hq')
      have hwf' : (poolKeys ps).Nodup := by
        simp only [poolKeys, List.map_cons, List.nodup_cons] at hwf
        exact hwf.2
      rw [getPool_cons_neg p ps q.1 (by simpa using hkey)]
      exact ih hwf' hq'

theorem getPool_setPool_self (pools : Pools) (k : String)
    (v : List BoardResource) (hk : k ∈ poolKeys pools) :
    getPool (setPool pools k v) k = v := by
  induction pools with
  | nil => simp [poolKeys] at hk
  | cons p ps ih =>
    rw [setPool_cons]
    by_cases hpk : (p.1 == k) = true
    · rw [if_pos hpk]
      exact getPool_cons_pos (p.1, v) (setPool ps k v) k hpk
    · have hk' : k ∈ poolKeys ps := by
        rcases List.mem_cons.mp hk with hh | hh
        · exact absurd (by simp [hh] : (p.1 == k) = true) hpk
        · exact hh
      rw [if_neg hpk,
        getPool_cons_neg p (setPool ps k v) k (by simpa using hpk)]
      exact ih hk'

theorem getPool_setPool_ne (pools : Pools) (k k1 : String)
    (v : List BoardResource) (h : k1 ≠ k) :
    getPool (setPool pools k v) k1 = getPool pools k1 := by
  induction pools with
  | nil => rfl
  | cons p ps ih =>
    rw [setPool_cons]
    by_cases hpk : (p.1 == k) = true
    · have hp1 : p.1 = k := by simpa using hpk
      have hno : (p.1 == k1) = false := by
        simp only [beq_eq_false_iff_ne, ne_eq, hp1]
        exact fun hh => h hh.symm
      rw [if_pos hpk, getPool_cons_neg (p.1, v) (setPool ps k v) k1 hno,
        getPool_cons_neg p ps k1 hno]
      exact ih
    · by_cases hq : (p.1 == k1) = true
      · rw [if_neg hpk, getPool_cons_pos p (setPool ps k v) k1 hq,
          getPool_cons_pos p ps k1 hq]
      · have hqf : (p.1 == k1) = false := by simpa using hq
        rw [if_neg hpk, getPool_cons_neg p (setPool ps k v) k1 hqf,
          getPool_cons_neg p ps k1 hqf]
        exact ih

theorem allItems_cons (p : String × List BoardResource) (ps : Pools) :
    allItems (p :: ps) = p.2 ++ allItems ps := by
  simp [allItems]

theorem allItems_setPool (pools : Pools) (k : String) (v : List BoardResource)
    (hwf : (poolKeys pools).Nodup) (hk : k ∈ poolKeys pools) :
    List.Perm (allItems (setPool pools k v) ++ getPool pools k)
      (allItems pools ++ v) := by
  induction pools with
  | nil => simp [poolKeys] at hk
  | cons p ps ih =>
    have hwf' : (poolKeys ps).Nodup := by
      simp only [poolKeys, List.map_cons, List.nodup_cons] at hwf
      exact hwf.2
    rw [setPool_cons]
    by_cases hpk : (p.1 == k) = true
    · have hp1 : p.1 = k := by simpa using hpk
      have hknotin : k ∉ poolKeys ps := by
        simp only [poolKeys, List.map_cons, List.nodup_cons] at hwf
        exact hp1 ▸ hwf.1
      rw [if_pos hpk, setPool_of_not_mem ps k v hknotin,
        getPool_cons_pos p ps k hpk, allItems_cons, allItems_cons]
      have h1 : List.Perm ((v ++ allItems ps) ++ p.2) (p.2 ++ (v ++ allItems ps)) :=
        List.perm_append_comm
      have h2 : List.Perm (p.2 ++ (v ++ allItems ps)) (p.2 ++ (allItems ps ++ v)) :=
        List.Perm.append_left p.2 List.perm_append_comm
      rw [List.append_assoc p.2 (allItems ps) v]
      exact h1.trans h2
    · have hk' : k ∈ poolKeys ps := by
        rcases List.mem_cons.mp hk with hh | hh
        · exact absurd (by simp [hh] : (p.1 == k) = true) hpk
        · exact hh
      have hpkf : (p.1 == k) = false := by simpa using hpk
      rw [if_neg hpk, getPool_cons_neg p ps k hpkf, allItems_cons, allItems_cons,
        List.append_assoc, List.append_assoc]
      exact List.Perm.append_left p.2 (ih hwf' hk')

theorem perm_cons_eraseIdx {α : Type*} (l : List α) (i : Nat) (x : α)
    (h : l[i]? = some x) : List.Perm l (x :: l.eraseIdx i) := by
  induction l generalizing i with
  | nil => simp at h
  | cons a as ih =>
    cases i with
    | zero => simp_all
    | succ n =>
      simp only [List.getElem?_cons_succ] at h
      exact ((ih n h).cons a).trans (List.Perm.swap x a _)

theorem insertIdx_perm {α : Type*} (x : α) (n : Nat) (l : List α)
    (h : n ≤ l.length) : List.Perm (l.insertIdx n x) (x :: l) := by
  induction n generalizing l with
  | zero => simp [List.insertIdx_zero]
  | succ m ih =>
    cases l with
    | nil => simp at h
    | cons a as =>
      rw [List.insertIdx_succ_cons]
      exact ((ih as (by simpa using h)).cons a).trans (List.Perm.swap x a as)

theorem spliceInsertPos_le (len : Nat) (pos : Int) : spliceInsertPos len pos ≤ len := by
  unfold spliceInsertPos
  split
  · omega
  · exact Nat.min_le_right _ _

theorem arrayMove_perm {α : Type*} (l : List α) (i tgt : Int) :
    List.Perm (arrayMove l i tgt) l := by
  unfold arrayMove
  cases hget : l[spliceStart l i]? with
  | none => exact List.Perm.refl l
  | some x =>
    have h1 : List.Perm l (x :: l.eraseIdx (spliceStart l i)) :=
      perm_cons_eraseIdx l (spliceStart l i) x hget
    have h2 : List.Perm ((l.eraseIdx (spliceStart l i)).insertIdx
        (spliceInsertPos (l.eraseIdx (spliceStart l i)).length tgt) x)
        (x :: l.eraseIdx (spliceStart l i)) :=
      insertIdx_perm x _ _ (spliceInsertPos_le _ tgt)
    exact h2.trans h1.symm

theorem filter_beq_single (l : List BoardResource) (a : String)
    (moving : BoardResource)
    (hf : l.find? (fun r => r.id == a) = some moving)
    (hnd : (l.map BoardResource.id).Nodup) :
    l.filter (fun r => r.id == a) = [moving] := by
  induction l with
  | nil => simp at hf
  | cons x xs ih =>
    rw [List.find?_cons] at hf
    rw [List.filter_cons]
    by_cases hx : (x.id == a) = true
    · simp only [hx, if_pos] at hf ⊢
      obtain rfl : x = moving := by injection hf
      have hxs : ∀ y ∈ xs, ¬ (y.id == a) = true := by
        intro y hy hya
        have hmem : x.id ∈ xs.map BoardResource.id := by
          have hya2 : y.id = a := by simpa using hya
          have hma : x.id = a := by simpa using hx
          rw [hma, ← hya2]
          exact List.mem_map_of_mem BoardResource.id hy
        simp only [List.map_cons, List.nodup_cons] at hnd
        exact hnd.1 hmem
      rw [List.filter_eq_nil_iff.mpr hxs]
    · simp only [hx, if_neg, Bool.false_eq_true, reduceIte] at hf ⊢
      simp only [List.map_cons, List.nodup_cons] at hnd
      exact ih hf hnd.2

theorem perm_filter_decompose (l : List BoardResource) (a : String)
    (moving : BoardResource)
    (hf : l.find? (fun r => r.id == a) = some moving)
    (hnd : (l.map BoardResource.id).Nodup) :
    List.Perm l (moving :: l.filter (fun r => r.id != a)) := by
  have h := List.filter_append_perm (fun r => r.id == a) l
  rw [filter_beq_single l a moving hf hnd] at h
  exact h.symm

theorem findPool_spec (pools : Pools) (a fromCol : String)
    (hfp : findPool pools a = some fromCol) :
    ∃ q ∈ pools, q.1 = fromCol ∧ q.2.any (fun r => r.id == a) = true := by
  unfold findPool at hfp
  cases hq : pools.find? (fun p => p.2.any (fun r => r.id == a)) with
  | none => rw [hq] at hfp; exact absurd hfp (by simp)
  | some q =>
    rw [hq] at hfp
    have hq1 : q.1 = fromCol := by simpa using hfp
    subst hq1
    have hpred := SAR.find?_pred hq
    exact ⟨q, List.mem_of_find?_eq_some hq, rfl, hpred⟩

theorem pool_ids_nodup (pools : Pools) (hnd : (allIds pools).Nodup)
    {q : String × List BoardResource} (hq : q ∈ pools) :
    (q.2.map BoardResource.id).Nodup := by
  have hsub : q.2.Sublist (allItems pools) :=
    List.sublist_flatten_of_mem (List.mem_map_of_mem Prod.snd hq)
  exact List.Nodup.sublist (hsub.map BoardResource.id) hnd

theorem handleDragEnd_keys (pools : Pools) (ev : DragEndEvent) :
    poolKeys (handleDragEnd pools ev) = poolKeys pools := by
  cases hov : ev.over with
  | none => simp [handleDragEnd, hov]
  | some o =>
    cases hfp : findPool pools ev.activeId with
    | none => simp [handleDragEnd, hov, hfp]
    | some fromCol =>
      cases hcid : o.columnId with
      | none => simp [handleDragEnd, hov, hfp, hcid]
      | some toCol =>
        by_cases hft : fromCol = toCol
        · subst hft
          simp [handleDragEnd, hov, hfp, hcid, poolKeys_setPool]
        · cases hmv : (getPool pools fromCol).find? (fun r => r.id == ev.activeId) with
          | none => simp [handleDragEnd, hov, hfp, hcid, hft, hmv]
          | some moving =>
            simp [handleDragEnd, hov, hfp, hcid, hft, hmv, poolKeys_setPool]

theorem targetOk_of_keys_eq (pools pools' : Pools) (ev : DragEndEvent)
    (h : poolKeys pools' = poolKeys pools) :
    targetOk pools' ev = targetOk pools ev := by
  unfold targetOk
  simp only [h]

theorem handleDragEnd_perm (pools : Pools) (ev : DragEndEvent)
    (hwf : (poolKeys pools).Nodup) (hnd : (allIds pools).Nodup)
    (hok : targetOk pools ev = true) :
    List.Perm (allItems (handleDragEnd pools ev)) (allItems pools) := by
  cases hov : ev.over with
  | none => simp [handleDragEnd, hov]
  | some o =>
    cases hfp : findPool pools ev.activeId with
    | none => simp [handleDragEnd, hov, hfp]
    | some fromCol =>
      cases hcid : o.columnId with
      | none => simp [handleDragEnd, hov, hfp, hcid]
      | some toCol =>
        obtain ⟨q, hqmem, hq1, hqany⟩ := findPool_spec pools ev.activeId fromCol hfp
        have hfromKeys : fromCol ∈ poolKeys pools :=
          hq1 ▸ List.mem_map_of_mem Prod.fst hqmem
        have hgetFrom : getPool pools fromCol = q.2 :=
          hq1 ▸ getPool_eq_of_mem pools hwf hqmem
        by_cases hft : fromCol = toCol
        · subst hft
          have hred : handleDragEnd pools ev =
              setPool pools fromCol
                (arrayMove (getPool pools fromCol)
                  (jsFindIndex (getPool pools fromCol) (fun r => r.id == ev.activeId))
                  (jsFindIndex (getPool pools fromCol) (fun r => r.id == o.id))) := by
            simp [handleDragEnd, hov, hfp, hcid]
          rw [hred]
          have hperm := arrayMove_perm (getPool pools fromCol)
            (jsFindIndex (getPool pools fromCol) (fun r => r.id == ev.activeId))
            (jsFindIndex (getPool pools fromCol) (fun r => r.id == o.id))
          have hsp := allItems_setPool pools fromCol
            (arrayMove (getPool pools fromCol)
              (jsFindIndex (getPool pools fromCol) (fun r => r.id == ev.activeId))
              (jsFindIndex (getPool pools fromCol) (fun r => r.id == o.id)))
            hwf hfromKeys
          exact (List.perm_append_right_iff (getPool pools fromCol)).mp
            (hsp.trans (List.Perm.append_left (allItems pools) hperm))
        · cases hmv : (getPool pools fromCol).find? (fun r => r.id == ev.activeId) with
          | none => simp [handleDragEnd, hov, hfp, hcid, hft, hmv]
          | some moving =>
            have hto : toCol ∈ poolKeys pools := by
              have htok : targetOk pools ev = decide (toCol ∈ poolKeys pools) := by
                simp [targetOk, hov, hcid]
              rw [htok] at hok
              exact of_decide_eq_true hok
            have hred : handleDragEnd pools ev =
                setPool (setPool pools fromCol
                    ((getPool pools fromCol).filter (fun r => r.id != ev.activeId)))
                  toCol (getPool pools toCol ++ [moving]) := by
              simp [handleDragEnd, hov, hfp, hcid, hft, hmv]
            rw [hred]
            have hndFrom : ((getPool pools fromCol).map BoardResource.id).Nodup := by
              rw [hgetFrom]
              exact pool_ids_nodup pools hnd hqmem
            have hdecomp := perm_filter_decompose (getPool pools fromCol)
              ev.activeId moving hmv hndFrom
            have hsp1 := allItems_setPool pools fromCol
              ((getPool pools fromCol).filter (fun r => r.id != ev.activeId))
              hwf hfromKeys
            have h1 := List.Perm.append_left
              (allItems (setPool pools fromCol
                ((getPool pools fromCol).filter (fun r => r.id != ev.activeId))))
              hdecomp
            rw [List.append_cons] at h1
            have hA := (List.perm_append_right_iff
              ((getPool pools fromCol).filter (fun r => r.id != ev.activeId))).mp
              (h1.symm.trans hsp1)
            have hkeys1 : poolKeys (setPool pools fromCol
                ((getPool pools fromCol).filter (fun r => r.id != ev.activeId))) =
                poolKeys pools :=
              poolKeys_setPool pools fromCol _
            have hwfS1 : (poolKeys (setPool pools fromCol
                ((getPool pools fromCol).filter (fun r => r.id != ev.activeId)))).Nodup := by
              rw [hkeys1]
              exact hwf
            have htoS1 : toCol ∈ poolKeys (setPool pools fromCol
                ((getPool pools fromCol).filter (fun r => r.id != ev.activeId))) := by
              rw [hkeys1]
              exact hto
            have hgetS1to : getPool (setPool pools fromCol
                ((getPool pools fromCol).filter (fun r => r.id != ev.activeId))) toCol =
                getPool pools toCol :=
              getPool_setPool_ne pools fromCol toCol _ (fun hh => hft hh.symm)
            have hsp2 := allItems_setPool (setPool pools fromCol
                ((getPool pools fromCol).filter (fun r => r.id != ev.activeId)))
              toCol (getPool pools toCol ++ [moving]) hwfS1 htoS1
            rw [hgetS1to] at hsp2
            have hcomm := List.Perm.append_left
              (allItems (setPool pools fromCol
                ((getPool pools fromCol).filter (fun r => r.id != ev.activeId))))
              (@List.perm_append_comm _ (getPool pools toCol) [moving])
            nth_rewrite 2 [← List.append_assoc] at hcomm
            have h6 := hsp2.trans hcomm
            exact ((List.perm_append_right_iff (getPool pools toCol)).mp h6).trans hA

theorem applyMoves_perm (evs : List DragEndEvent) : ∀ (pools : Pools),
    (poolKeys pools).Nodup → (allIds pools).Nodup →
    (∀ ev ∈ evs, targetOk pools ev = true) →
    List.Perm (allItems (applyMoves pools evs)) (allItems pools) ∧
    poolKeys (applyMoves pools evs) = poolKeys pools := by
  induction evs with
  | nil =>
    intro pools _ _ _
    exact ⟨List.Perm.refl _, rfl⟩
  | cons e es ih =>
    intro pools hwf hnd hok
    have hstep := handleDragEnd_perm pools e hwf hnd (hok e (List.mem_cons_self e es))
    have hkeys := handleDragEnd_keys pools e
    have hwf' : (poolKeys (handleDragEnd pools e)).Nodup := by
      rw [hkeys]
      exact hwf
    have hnd' : (allIds (handleDragEnd pools e)).Nodup := by
      have hidperm : List.Perm (allIds (handleDragEnd pools e)) (allIds pools) :=
        hstep.map BoardResource.id
      exact hidperm.symm.nodup hnd
    have hok' : ∀ ev ∈ es, targetOk (handleDragEnd pools e) ev = true := by
      intro ev hev
      rw [targetOk_of_keys_eq pools (handleDragEnd pools e) ev hkeys]
      exact hok ev (List.mem_cons_of_mem e hev)
    have hih := ih (handleDragEnd pools e) hwf' hnd' hok'
    refine ⟨hih.1.trans hstep, ?_⟩
    rw [show applyMoves pools (e :: es) = applyMoves (handleDragEnd pools e) es
      from rfl, hih.2, hkeys]

theorem sumLens_eq (ps : Pools) : sumLens ps = (allItems ps).length := by
  simp only [sumLens, allItems, List.length_flatten, List.map_map]
  rfl

/-- C2: any sequence of drag moves (each targeting an existing column)
permutes the multiset of resources on the board: the resource ids after the
sequence are a permutation of the ids before it (so the union of the pools'
id sets is unchanged and no id is created, destroyed or duplicated), each id
still appears in exactly one place, and the sum over pools of the pool
lengths is invariant. -/
theorem move_conservation (pools : Pools) (evs : List DragEndEvent)
    (hwf : (poolKeys pools).Nodup) (hnd : (allIds pools).Nodup)
    (hok : ∀ ev ∈ evs, targetOk pools ev = true) :
    List.Perm (allIds (applyMoves pools evs)) (allIds pools) ∧
    sumLens (applyMoves pools evs) = sumLens pools ∧
    (allIds (applyMoves pools evs)).Nodup := by
  obtain ⟨hperm, hkeys⟩ := applyMoves_perm evs pools hwf hnd hok
  have hidperm : List.Perm (allIds (applyMoves pools evs)) (allIds pools) :=
    hperm.map BoardResource.id
  refine ⟨hidperm, ?_, hidperm.symm.nodup hnd⟩
  rw [sumLens_eq, sumLens_eq]
  exact hperm.length_eq

theorem move_conservation_witness :
    (poolKeys demoPools).Nodup ∧ (allIds demoPools).Nodup ∧
    (∀ ev ∈ [cexEv], targetOk demoPools ev = true) ∧
    (List.Perm (allIds (applyMoves demoPools [cexEv])) (allIds demoPools) ∧
      sumLens (applyMoves demoPools [cexEv]) = sumLens demoPools ∧
      (allIds (applyMoves demoPools [cexEv])).Nodup) := by
  have h1 : (poolKeys demoPools).Nodup := by decide
  have h2 : (allIds demoPools).Nodup := by decide
  have h3 : ∀ ev ∈ [cexEv], targetOk demoPools ev = true := by decide
  exact ⟨h1, h2, h3, move_conservation demoPools [cexEv] h1 h2 h3⟩

/-- C7 (amended): a cross-column drop of a resource that is on the board onto
an existing column removes it from its column and appends it at the end of
the target column — the drop position (the spec's `targetIndex`) is not
consulted — and every other pool is untouched. -/
theorem handleDragEnd_cross (pools : Pools) (a oid fromCol toCol : String)
    (moving : BoardResource)
    (hwf : (poolKeys pools).Nodup)
    (hfp : findPool pools a = some fromCol)
    (hft : fromCol ≠ toCol)
    (hto : toCol ∈ poolKeys pools)
    (hmv : (getPool pools fromCol).find? (fun r => r.id == a) = some moving) :
    getPool (handleDragEnd pools ⟨a, some ⟨oid, some toCol⟩⟩) fromCol =
      (getPool pools fromCol).filter (fun r => r.id != a) ∧
    getPool (handleDragEnd pools ⟨a, some ⟨oid, some toCol⟩⟩) toCol =
      getPool pools toCol ++ [moving] ∧
    (∀ k, k ≠ fromCol → k ≠ toCol →
      getPool (handleDragEnd pools ⟨a, some ⟨oid, some toCol⟩⟩) k =
        getPool pools k) := by
  have hred : handleDragEnd pools ⟨a, some ⟨oid, some toCol⟩⟩ =
      setPool (setPool pools fromCol
          ((getPool pools fromCol).filter (fun r => r.id != a)))
        toCol (getPool pools toCol ++ [moving]) := by
    simp [handleDragEnd, hfp, hft, hmv]
  obtain ⟨q, hqmem, hq1, hqany⟩ := findPool_spec pools a fromCol hfp
  have hfromKeys : fromCol ∈ poolKeys pools :=
    hq1 ▸ List.mem_map_of_mem Prod.fst hqmem
  have hkeys1 : poolKeys (setPool pools fromCol
      ((getPool pools fromCol).filter (fun r => r.id != a))) = poolKeys pools :=
    poolKeys_setPool pools fromCol _
  refine ⟨?_, ?_, ?_⟩
  · rw [hred, getPool_setPool_ne _ toCol fromCol _ hft,
      getPool_setPool_self _ _ _ hfromKeys]
  · rw [hred, getPool_setPool_self _ _ _ (by rw [hkeys1]; exact hto)]
  · intro k hkf hkt
    rw [hred, getPool_setPool_ne _ toCol k _ hkt,
      getPool_setPool_ne _ fromCol k _ hkf]

/-- Board of the claim's concrete example: `available = [r1, r2]`,
`teamA = []`. -/
def ex7Pools : Pools := [("available", [r1br, r2br]), ("teamA", [])]

theorem handleDragEnd_cross_witness :
    (poolKeys ex7Pools).Nodup ∧
    findPool ex7Pools "r1" = some "available" ∧
    "available" ≠ "teamA" ∧
    "teamA" ∈ poolKeys ex7Pools ∧
    (getPool ex7Pools "available").find? (fun r => r.id == "r1") = some r1br ∧
    (getPool (handleDragEnd ex7Pools ⟨"r1", some ⟨"teamA", some "teamA"⟩⟩)
        "available" =
      (getPool ex7Pools "available").filter (fun r => r.id != "r1") ∧
    getPool (handleDragEnd ex7Pools ⟨"r1", some ⟨"teamA", some "teamA"⟩⟩)
        "teamA" =
      getPool ex7Pools "teamA" ++ [r1br] ∧
    (∀ k, k ≠ "available" → k ≠ "teamA" →
      getPool (handleDragEnd ex7Pools ⟨"r1", some ⟨"teamA", some "teamA"⟩⟩) k =
        getPool ex7Pools k)) := by
  have h1 : (poolKeys ex7Pools).Nodup := by decide
  have h2 : findPool ex7Pools "r1" = some "available" := by decide
  have h3 : "available" ≠ "teamA" := by decide
  have h4 : "teamA" ∈ poolKeys ex7Pools := by decide
  have h5 : (getPool ex7Pools "available").find? (fun r => r.id == "r1") =
      some r1br := by decide
  exact ⟨h1, h2, h3, h4, h5,
    handleDragEnd_cross ex7Pools "r1" "teamA" "available" "teamA" r1br
      h1 h2 h3 h4 h5⟩

/-- C7 (counterexample): on a board where `teamA` already holds `r3`, the
claim requires the move of `r1` into `teamA` at `targetIndex = 0` to produce
`teamA = [r1, r3]` (the spec-worded `specMove` does); the code instead
appends whatever the drop position was — dropping `r1` on the `teamA` column
gives `teamA = [r3, r1]` — and dropping `r1` on the strip at index 0 of
`teamA` (a sortable whose droppable data carries no `columnId`) changes
nothing at all. -/
theorem cross_move_ignores_targetIndex :
    getPool (handleDragEnd cexPools cexEv) "teamA" = [r3br, r1br] ∧
    getPool (specMove cexPools "r1" "available" "teamA" 0) "teamA" =
      [r1br, r3br] ∧
    handleDragEnd cexPools cexEv ≠ specMove cexPools "r1" "available" "teamA" 0 ∧
    handleDragEnd cexPools
        { activeId := "r1", over := some { id := "r3", columnId := none } } =
      cexPools := by
  decide

end Board
